import Mathlib

/-!
Shallow embedding of the drg-native object-model and hook code, and proofs of
the specification claims about it.

Sources embedded:
* `src/common/src/object.rs` — `FUObjectArray` (chunked global object table),
  `FUObjectItem` slot validity, `index_to_object`, the `ObjectIterator`,
  the qualified-name resolver `FUObjectArray::find`, the class base-chain
  ancestor test `FStructBaseChain::is` / `UStruct::is`, and the
  `Display for UObject` formatter.
* `src/common/src/lib.rs` — `FWeakObjectPtr::get`.
* `src/hook/src/lib.rs` — byte `Patch<N>` (entry patching with protection
  toggling), `ProcessEventHook` construction and teardown.
* `src/hook/src/hooks/patch.rs` — the typed `Patch<T>` value patch.

Modelling conventions: raw pointers are `Nat` addresses with `0` as null;
dereferencing goes through explicit world/heap functions; machine integer
casts (`i32 as usize`) are explicit `% 2^64` arithmetic; reads that the Rust
code performs out of the bounds of an allocation are surfaced as explicit
out-of-bounds outcomes instead of values.
-/

namespace Drg

/-- Rust `i as usize` for `i : i32`: sign-extend, i.e. the value mod `2^64`. -/
def usizeCast (i : Int) : Nat := (i % (2:Int) ^ 64).toNat

/-- Rust `a.wrapping_sub(b)` on `usize` operands. -/
def usizeWrapSub (a b : Nat) : Nat := (a % 2 ^ 64 + (2 ^ 64 - b % 2 ^ 64)) % 2 ^ 64

/-- `const NumElementsPerChunk: usize = 64 * 1024;` from object.rs. -/
def NumElementsPerChunk : Nat := 64 * 1024

/-! ## Object table (`FUObjectArray`, object.rs) -/

/-- `FUObjectItem`: one object-table slot. `Object` is the `*mut UObject`
address (0 = null); `Flags` is the 32-bit flag pattern of the `i32` field. -/
structure FUObjectItem where
  Object : Nat
  Flags : Nat
  ClusterRootIndex : Int
  SerialNumber : Int
  deriving DecidableEq, Repr

instance : Inhabited FUObjectItem := ⟨⟨0, 0, 0, 0⟩⟩

/-- `is_unreachable`: `self.Flags & (1 << 28) == 1 << 28`. -/
def FUObjectItem.is_unreachable (s : FUObjectItem) : Bool :=
  s.Flags.land (2 ^ 28) == 2 ^ 28

/-- `is_pending_kill`: `self.Flags & (1 << 29) == 1 << 29`. -/
def FUObjectItem.is_pending_kill (s : FUObjectItem) : Bool :=
  s.Flags.land (2 ^ 29) == 2 ^ 29

/-- `is_valid`: `!self.is_unreachable() && !self.is_pending_kill()`. -/
def FUObjectItem.is_valid (s : FUObjectItem) : Bool :=
  !s.is_unreachable && !s.is_pending_kill

/-- `TUObjectArray`: the chunked slot storage. `chunks` models the
`Objects: *const *mut FUObjectItem` chunk-pointer array as a list of chunk
blocks; each chunk is a 64K-slot allocation modelled as a total function.
`NumElements` is the `i32` element count. The remaining fields
(`PreAllocatedObjects`, `MaxElements`, `MaxChunks`, `NumChunks`) are never
read by the embedded operations and are omitted. -/
structure TUObjectArray where
  chunks : List (Nat → FUObjectItem)
  NumElements : Int

/-- `FUObjectArray`: wrapper holding `ObjObjects`. Its GC bookkeeping fields
(`ObjFirstGCIndex`, …) are never read by the embedded operations. -/
structure FUObjectArray where
  ObjObjects : TUObjectArray

/-- Result of computing a `*const FUObjectItem`: null, a slot value, or an
out-of-bounds read of the chunk-pointer array (undefined behavior in the
source, surfaced explicitly here). -/
inductive SlotPtr where
  | null : SlotPtr
  | oob : SlotPtr
  | slot : FUObjectItem → SlotPtr
  deriving DecidableEq, Repr

/-- `FUObjectArray::index_to_object`:
```
if index < self.ObjObjects.NumElements {
    let index = index as usize;
    let chunk = *self.ObjObjects.Objects.add(index / NumElementsPerChunk);
    chunk.add(index % NumElementsPerChunk)
} else { ptr::null() }
```
The signed compare and the `as usize` sign-extension are modelled exactly;
a chunk-pointer read past the end of `chunks` is `.oob`. -/
def FUObjectArray.index_to_object (t : FUObjectArray) (index : Int) : SlotPtr :=
  if index < t.ObjObjects.NumElements then
    let idx := usizeCast index
    match t.ObjObjects.chunks.get? (idx / NumElementsPerChunk) with
    | some chunk => .slot (chunk (idx % NumElementsPerChunk))
    | none => .oob
  else
    .null

/-- The slot stored at non-negative in-range index `i`: chunk `i / 65536`,
intra-chunk offset `i % 65536`. -/
def slotAt (t : FUObjectArray) (i : Int) : FUObjectItem :=
  (t.ObjObjects.chunks.getD (i.toNat / NumElementsPerChunk) default)
    (i.toNat % NumElementsPerChunk)

/-- `ObjectIterator` state from object.rs. -/
structure ObjectIterator where
  chunks : List (Nat → FUObjectItem)
  num_objects : Nat
  index : Nat

/-- One `Iterator::next` step. `none` = iteration finished;
`some (none, _)` = the chunk-pointer read was out of bounds;
`some (some p, it)` = yielded object pointer `p` (possibly null) and the
advanced iterator. -/
def ObjectIterator.next (it : ObjectIterator) : Option (Option Nat × ObjectIterator) :=
  if it.index < it.num_objects then
    match it.chunks.get? (it.index / NumElementsPerChunk) with
    | some chunk =>
      some (some ((chunk (it.index % NumElementsPerChunk)).Object),
        { it with index := it.index + 1 })
    | none => some (none, { it with index := it.index + 1 })
  else
    none

/-- Drain the iterator with the given amount of fuel, collecting every yielded
object pointer. `none` = an out-of-bounds chunk read occurred (or the fuel ran
out before the iterator finished). -/
def ObjectIterator.drain (it : ObjectIterator) : Nat → Option (List Nat)
  | 0 =>
    match it.next with
    | none => some []
    | some _ => none
  | fuel + 1 =>
    match it.next with
    | none => some []
    | some (none, _) => none
    | some (some p, it2) => (it2.drain fuel).map (p :: ·)

/-- `FUObjectArray::iter`: starts at index 0 with
`num_objects = NumElements as usize`. -/
def FUObjectArray.iter (t : FUObjectArray) : ObjectIterator :=
  ⟨t.ObjObjects.chunks, usizeCast t.ObjObjects.NumElements, 0⟩

/-- The full sequence an `ObjectIterator` yields when run to completion. -/
def iterList (t : FUObjectArray) : Option (List Nat) :=
  t.iter.drain (usizeCast t.ObjObjects.NumElements)

/-! ## Weak references (`FWeakObjectPtr`, lib.rs) -/

/-- `FWeakObjectPtr`: an (index, serial number) pair. -/
structure FWeakObjectPtr where
  ObjectIndex : Int
  ObjectSerialNumber : Int
  deriving DecidableEq, Repr

/-- Result of `FWeakObjectPtr::get`: a returned pointer value (0 = null), or
an invalid memory access inside `index_to_object`. -/
inductive WeakGet where
  | ptr : Nat → WeakGet
  | undef : WeakGet
  deriving DecidableEq, Repr

/-- `FWeakObjectPtr::get`:
```
if self.ObjectSerialNumber == 0 || self.ObjectIndex < 0 { ptr::null_mut() }
else {
    let object_item = (*GUObjectArray).index_to_object(self.ObjectIndex);
    if object_item.is_null()
        || (*object_item).SerialNumber != self.ObjectSerialNumber
        || !(*object_item).is_valid() { ptr::null_mut() }
    else { (*object_item).Object }
}
```
The global `GUObjectArray` is passed explicitly as `t`. -/
def FWeakObjectPtr.get (w : FWeakObjectPtr) (t : FUObjectArray) : WeakGet :=
  if w.ObjectSerialNumber = 0 ∨ w.ObjectIndex < 0 then
    .ptr 0
  else
    match t.index_to_object w.ObjectIndex with
    | .null => .ptr 0
    | .oob => .undef
    | .slot s =>
      if s.SerialNumber ≠ w.ObjectSerialNumber ∨ s.is_valid = false then .ptr 0
      else .ptr s.Object

/-! ## Object headers and the qualified-name resolver (object.rs) -/

/-- `FName` as resolved through the name pool: interned text plus the
instance-disambiguation number (0 = no suffix). `UObject::name()` returns
only the text. -/
structure FName where
  text : String
  number : Nat
  deriving DecidableEq, Repr

/-- The `UObject` header fields read by the resolver and the formatter:
`ClassPrivate` and `OuterPrivate` as addresses (0 = null). -/
structure ObjHeader where
  NamePrivate : FName
  ClassPrivate : Nat
  OuterPrivate : Nat
  deriving DecidableEq, Repr

/-- A read-only view of the host object graph: dereference of a non-null
`*mut UObject`. -/
structure ObjectWorld where
  heap : Nat → ObjHeader

/-- `const MAX_OUTERS: usize = 32;` from object.rs. -/
def MAX_OUTERS : Nat := 32

/-- The parsed qualified name (`FullName` from full_name.rs, whose parser is
not part of the resolver itself): class token, outer tokens ordered
innermost-first, and the object-name token. `find` consumes only these three
components of the parse. -/
structure FullName where
  cls : String
  outers : List String
  name : String
  deriving DecidableEq, Repr

/-- The inner loop of `find` over the target outers:
```
for target_outer in target.outers.iter() {
    if my_outer.is_null() { continue 'outer; }
    if (*my_outer).name().as_bytes() != *target_outer { continue 'outer; }
    my_outer = (*my_outer).OuterPrivate;
}
```
`true` = every target outer matched (the candidate survives this tier). -/
def matchOuters (w : ObjectWorld) : List String → Nat → Bool
  | [], _ => true
  | t :: rest, p =>
    if p = 0 then false
    else if (w.heap p).NamePrivate.text ≠ t then false
    else matchOuters w rest (w.heap p).OuterPrivate

/-- Result of `FUObjectArray::find`: a matching object pointer or
`Error::UnableToFind(name)` carrying the query string. -/
inductive FindResult where
  | ok : Nat → FindResult
  | UnableToFind : String → FindResult
  deriving DecidableEq, Repr

/-- The candidate loop of `find`, over the pointer sequence the object-table
iterator yields: skip null, compare own name, then class name, then walk the
outer chain; return the first candidate that survives all three tiers. -/
def findLoop (w : ObjectWorld) (tgt : FullName) : List Nat → Option Nat
  | [] => none
  | p :: rest =>
    if p = 0 then findLoop w tgt rest
    else if (w.heap p).NamePrivate.text ≠ tgt.name then findLoop w tgt rest
    else if (w.heap (w.heap p).ClassPrivate).NamePrivate.text ≠ tgt.cls then
      findLoop w tgt rest
    else if matchOuters w tgt.outers (w.heap p).OuterPrivate then some p
    else findLoop w tgt rest

/-- `FUObjectArray::find(name)`: iterate the table and run the candidate
loop; on no match return `Error::UnableToFind(name)` with the original query
string. `tgt` is the `FullName` parsed from `query` (the parse lives in
full_name.rs; the claim quantifies over parsed targets). The outer `Option`
is `none` only if the table iteration itself read out of bounds. -/
def FUObjectArray.find (w : ObjectWorld) (t : FUObjectArray) (query : String)
    (tgt : FullName) : Option FindResult :=
  (iterList t).map fun objs =>
    match findLoop w tgt objs with
    | some p => .ok p
    | none => .UnableToFind query

/-- Specification-side predicate assembled from the claim's wording: the
candidate's own name matches the target's name token, its class's name
matches the class token, and its outer chain matches every outer token in
order (rejecting on chain exhaustion before the token list is exhausted). -/
def matchesAllTiers (w : ObjectWorld) (tgt : FullName) (p : Nat) : Bool :=
  (w.heap p).NamePrivate.text == tgt.name &&
  ((w.heap (w.heap p).ClassPrivate).NamePrivate.text == tgt.cls &&
    matchOuters w tgt.outers (w.heap p).OuterPrivate)

/-! ## Class base chains (`FStructBaseChain`, object.rs) -/

/-- `FStructBaseChain`: the ancestor-pointer array (a total function over an
allocation owned by the target) and the `i32` chain-depth field. -/
structure FStructBaseChain where
  StructBaseChainArray : Nat → Nat
  NumStructBasesInChainMinusOne : Int

/-- Dereference of a `*const FStructBaseChain`. Since the chain struct sits
at a fixed offset inside every `UStruct`, a class descriptor is identified
with the address of its chain. -/
structure ChainWorld where
  chains : Nat → FStructBaseChain

/-- `FStructBaseChain::is`:
```
let parent_index = (*parent).NumStructBasesInChainMinusOne;
let child_index = self.NumStructBasesInChainMinusOne;
parent_index <= child_index
    && *self.StructBaseChainArray.add(parent_index as usize) == parent
```
The array index uses the `i32 as usize` sign-extension; the final compare is
pointer equality against `parent`. -/
def FStructBaseChain.is (w : ChainWorld) (selfPtr parentPtr : Nat) : Bool :=
  let parent_index := (w.chains parentPtr).NumStructBasesInChainMinusOne
  let child_index := (w.chains selfPtr).NumStructBasesInChainMinusOne
  decide (parent_index ≤ child_index) &&
    ((w.chains selfPtr).StructBaseChainArray (usizeCast parent_index) == parentPtr)

/-- `UStruct::is`: delegates to the embedded chain of `self` against the
address of `parent`'s embedded chain. -/
def UStruct.is (w : ChainWorld) (selfPtr parentPtr : Nat) : Bool :=
  FStructBaseChain.is w selfPtr parentPtr

/-- Specification-side ancestor relation from the claim's wording: `P`'s
chain depth is ≤ `C`'s chain depth and the pointer stored in `C`'s chain
array at `P`'s chain-depth index equals `P`. (The depth is the stored
`NumStructBasesInChainMinusOne` field — the per-class chain-length field the
spec indexes with.) -/
def specDescendantOrSelf (w : ChainWorld) (c p : Nat) : Prop :=
  (w.chains p).NumStructBasesInChainMinusOne ≤
    (w.chains c).NumStructBasesInChainMinusOne ∧
  (w.chains c).StructBaseChainArray
    ((w.chains p).NumStructBasesInChainMinusOne).toNat = p

instance (w : ChainWorld) (c p : Nat) : Decidable (specDescendantOrSelf w c p) := by
  unfold specDescendantOrSelf; infer_instance

/-! ## `Display for UObject` (object.rs) -/

/-- The outer-collection loop of the formatter:
```
while !outer.is_null() {
    if outers.push((*outer).name()).is_err() { log!(warning); break; }
    outer = (*outer).OuterPrivate;
}
```
The fuel is the remaining capacity of the fixed 32-slot `List`; when it is
exhausted with a non-null outer remaining the loop breaks (truncation). -/
def collectOuters (w : ObjectWorld) : Nat → Nat → List String
  | _, 0 => []
  | 0, _ => []
  | fuel + 1, p =>
    (w.heap p).NamePrivate.text :: collectOuters w fuel (w.heap p).OuterPrivate

/-- Everything `Display for UObject` writes before the number suffix:
class name, space, the collected outers reversed each followed by `.`, and
the object's own name text. -/
def displayStem (w : ObjectWorld) (p : Nat) : String :=
  (w.heap (w.heap p).ClassPrivate).NamePrivate.text ++ " " ++
    String.join (((collectOuters w MAX_OUTERS (w.heap p).OuterPrivate).reverse).map
      (fun o => o ++ ".")) ++
    (w.heap p).NamePrivate.text

/-- The full `Display for UObject` output:
stem, then `_{number - 1}` exactly when `NamePrivate.number() > 0`. -/
def display (w : ObjectWorld) (p : Nat) : String :=
  displayStem w p ++
    (if (w.heap p).NamePrivate.number > 0 then
      "_" ++ toString ((w.heap p).NamePrivate.number - 1)
    else "")

/-- Specification-side suffix function from the claim's wording. -/
def numberSuffix (n : Nat) : String :=
  if 0 < n then "_" ++ toString (n - 1) else ""

/-! ## Memory patches and the hook (hook/src/lib.rs, hook/src/hooks/patch.rs) -/

/-- `PAGE_EXECUTE_READWRITE` protection constant. -/
def PAGE_EXECUTE_READWRITE : Nat := 0x40

/-- Byte memory plus per-address page protection. -/
structure MachineState where
  mem : Nat → Nat
  prot : Nat → Nat

/-- A single byte store. -/
def writeByte (m : Nat → Nat) (a v : Nat) : Nat → Nat :=
  fun x => if x = a then v else m x

/-- `copy_from_slice` at byte granularity: the bytes are stored one at a
time, in order of ascending address. -/
def writeBytes (m : Nat → Nat) (addr : Nat) : List Nat → (Nat → Nat)
  | [] => m
  | b :: bs => writeBytes (writeByte m addr b) (addr + 1) bs

/-- Every intermediate memory state of the byte-by-byte copy: the state
after the first store, after the second store, and so on. -/
def writeStates (m : Nat → Nat) (addr : Nat) : List Nat → List (Nat → Nat)
  | [] => []
  | b :: bs =>
    writeByte m addr b :: writeStates (writeByte m addr b) (addr + 1) bs

/-- Set the protection of `[addr, addr + n)` to `v`. -/
def setProtRange (pr : Nat → Nat) (addr n v : Nat) : Nat → Nat :=
  fun a => if addr ≤ a ∧ a < addr + n then v else pr a

/-- Read `n` bytes starting at `addr`. -/
def readBytes (m : Nat → Nat) (addr n : Nat) : List Nat :=
  (List.range n).map fun i => m (addr + i)

/-- `Patch::<N>::write` (hook/src/lib.rs):
`VirtualProtect(addr, N, PAGE_EXECUTE_READWRITE, &mut old)`, copy the bytes,
`VirtualProtect(addr, N, old, ..)` restoring the protection the first call
reported (the first page's previous protection), then
`FlushInstructionCache` (no memory effect). -/
def patchWriteBytes (s : MachineState) (addr : Nat) (bs : List Nat) : MachineState :=
  let old := s.prot addr
  let pr1 := setProtRange s.prot addr bs.length PAGE_EXECUTE_READWRITE
  { mem := writeBytes s.mem addr bs,
    prot := setProtRange pr1 addr bs.length old }

/-- `Patch<N>`: the patched address and the bytes captured before writing. -/
structure Patch where
  address : Nat
  original_bytes : List Nat

/-- `Patch::new(address, new_bytes)`: capture the original `N` bytes, then
`Self::write(address, new_bytes)`. -/
def Patch.new (s : MachineState) (addr : Nat) (new_bytes : List Nat) :
    Patch × MachineState :=
  (⟨addr, readBytes s.mem addr new_bytes.length⟩, patchWriteBytes s addr new_bytes)

/-- `Drop for Patch`: `Self::write(self.address, self.original_bytes)`. -/
def Patch.drop (p : Patch) (s : MachineState) : MachineState :=
  patchWriteBytes s p.address p.original_bytes

/-- A typed store for the generic `Patch<T>` of hook/src/hooks/patch.rs:
one `T` cell per address plus page protection. -/
structure ValueState (T : Type) where
  store : Nat → T
  prot : Nat → Nat

/-- `Patch::<T>::write`: protection toggled over `size_of::<T>()` bytes
around the single value store, restoring the previously reported
protection. -/
def valueWrite {T : Type} (size : Nat) (s : ValueState T) (addr : Nat) (v : T) :
    ValueState T :=
  let old := s.prot addr
  let pr1 := setProtRange s.prot addr size PAGE_EXECUTE_READWRITE
  { store := fun a => if a = addr then v else s.store a,
    prot := setProtRange pr1 addr size old }

/-- The generic `Patch<T>`: patched address and the original value read
before writing. -/
structure PatchT (T : Type) where
  address : Nat
  original : T

/-- `Patch::<T>::new`. -/
def PatchT.new {T : Type} (size : Nat) (s : ValueState T) (addr : Nat) (v : T) :
    PatchT T × ValueState T :=
  (⟨addr, s.store addr⟩, valueWrite size s addr v)

/-- `Drop for Patch<T>`. -/
def PatchT.drop {T : Type} (size : Nat) (p : PatchT T) (s : ValueState T) :
    ValueState T :=
  valueWrite size s p.address p.original

/-- `u32::to_le_bytes` of `v` (callers pass `v < 2^32`). -/
def le32 (v : Nat) : List Nat :=
  [v % 256, v / 256 % 256, v / 256 ^ 2 % 256, v / 256 ^ 3 % 256]

/-- `usize::to_le_bytes`. -/
def le64 (v : Nat) : List Nat :=
  le32 (v % 2 ^ 32) ++ le32 (v / 2 ^ 32 % 2 ^ 32)

/-- The 6-byte entry patch built in `ProcessEventHook::new`: `jmp rel32`
to the code cave (relative to `process_event + 5`) followed by a `nop`. -/
def jmpPatchBytes (process_event code_cave : Nat) : List Nat :=
  0xE9 :: le32 (usizeWrapSub code_cave (process_event + 5) % 2 ^ 32) ++ [0x90]

/-- The 31-byte trampoline written into the code cave: save `rcx/rdx/r8`,
`mov rax, my_process_event; call rax`, restore registers, the six bytes
captured from the target entry, then `jmp rel32` back to
`process_event + 6` (relative to `code_cave + 31`). -/
def cavePatchBytes (my_process_event process_event code_cave : Nat)
    (first_six : List Nat) : List Nat :=
  [0x51, 0x52, 0x41, 0x50, 0x48, 0xB8] ++ le64 (my_process_event % 2 ^ 64) ++
    [0xFF, 0xD0, 0x41, 0x58, 0x5A, 0x59] ++ first_six ++
    0xE9 :: le32 (usizeWrapSub (process_event + 6) (code_cave + 31) % 2 ^ 32)

/-- `ProcessEventHook`: the entry patch and the code-cave patch. -/
structure ProcessEventHook where
  jmp : Patch
  code_cave : Patch

/-- `ProcessEventHook::new(process_event, code_cave)`: build the cave bytes
(reading the target's first six entry bytes before anything is patched),
build the jump bytes, then apply the entry patch followed by the cave patch
(struct-literal field order). -/
def ProcessEventHook.new (s : MachineState)
    (my_process_event process_event code_cave : Nat) :
    ProcessEventHook × MachineState :=
  let first_six := readBytes s.mem process_event 6
  let cave_bytes := cavePatchBytes my_process_event process_event code_cave first_six
  let jmp_bytes := jmpPatchBytes process_event code_cave
  let jmpNew := Patch.new s process_event jmp_bytes
  let caveNew := Patch.new jmpNew.2 code_cave cave_bytes
  (⟨jmpNew.1, caveNew.1⟩, caveNew.2)

/-- Observable teardown steps of `Drop for ProcessEventHook`. -/
inductive TeardownEvent where
  | restoreEntry : TeardownEvent
  | sleep : Nat → TeardownEvent
  | restoreCave : TeardownEvent
  deriving DecidableEq, Repr

/-- `Drop for ProcessEventHook`:
```
ManuallyDrop::drop(&mut self.jmp);
win::Sleep(100);
ManuallyDrop::drop(&mut self.code_cave);
```
Returns the final machine state and the ordered trace of teardown steps. -/
def ProcessEventHook.drop (h : ProcessEventHook) (s : MachineState) :
    MachineState × List TeardownEvent :=
  let s1 := h.jmp.drop s
  let s2 := h.code_cave.drop s1
  (s2, [.restoreEntry, .sleep 100, .restoreCave])

/-- The memory of the target's 6 entry bytes for the concrete tearing
scenario: the ProcessEvent prologue bytes (from the signature in
hook/src/lib.rs) at address `0x1000`, `0xCC` elsewhere. -/
def peEntryMem : Nat → Nat :=
  writeBytes (fun _ => 0xCC) 0x1000 [0x40, 0x55, 0x56, 0x57, 0x41, 0x54]

/-! ## Concrete scenarios used by witnesses and counterexamples -/

/-- Single-chunk table: one live slot holding object 7 with serial 1,
`NumElements = 1`. -/
def tblOne : FUObjectArray := ⟨⟨[fun _ => ⟨7, 0, 0, 1⟩], 1⟩⟩

/-- Single-chunk table whose slot 0 has a non-null object pointer, clear
flags, and serial number 0 (the state a freshly added object has before any
weak reference to it is taken). -/
def tblSerialZero : FUObjectArray := ⟨⟨[fun _ => ⟨5, 0, 0, 0⟩], 1⟩⟩

/-- Ten-slot table: slot `i` holds object `i + 1`, except slot 5 whose
object was destroyed (null entry). -/
def tblTen : FUObjectArray :=
  ⟨⟨[fun i => if i = 5 then ⟨0, 0, 0, 1⟩ else ⟨i + 1, 0, 0, 1⟩], 10⟩⟩

/-- Class world: address 1 is class `P` with chain depth 0 and chain array
`[P]`; address 2 is class `C` with chain depth 1 and chain array `[P, C]`. -/
def chainW : ChainWorld :=
  ⟨fun q =>
    if q = 1 then ⟨fun _ => 1, 0⟩
    else if q = 2 then ⟨fun i => if i = 0 then 1 else 2, 1⟩
    else ⟨fun _ => 0, 0⟩⟩

/-- `chainW` with `C`'s chain-array entry at `P`'s depth index mutated so
the pointer no longer matches `P`. -/
def chainWMut : ChainWorld :=
  ⟨fun q =>
    if q = 2 then ⟨fun i => if i = 0 then 99 else 2, 1⟩
    else chainW.chains q⟩

/-- Object world for the formatter: object 1 is `Foo` (name number 3) of
class `Bar` (address 2) with outer `Baz` (address 3); objects 2 and 3 have
name number 0 and no outer. -/
def objW : ObjectWorld :=
  ⟨fun q =>
    if q = 1 then ⟨⟨"Foo", 3⟩, 2, 3⟩
    else if q = 2 then ⟨⟨"Bar", 0⟩, 2, 0⟩
    else if q = 3 then ⟨⟨"Baz", 0⟩, 2, 0⟩
    else ⟨⟨"None", 0⟩, 0, 0⟩⟩

/-- A concrete machine state with uniform page protection 2. -/
def ms0 : MachineState := ⟨fun a => a % 256, fun _ => 2⟩

/-- A concrete value store for the typed patch. -/
def vs0 : ValueState Nat := ⟨fun a => a, fun _ => 4⟩

/-! ## Helper lemmas -/

theorem usizeCast_eq_toNat (i : Int) (h0 : 0 ≤ i) (h : i < 2 ^ 31) :
    usizeCast i = i.toNat := by
  unfold usizeCast
  rw [Int.emod_eq_of_lt h0 (h.trans (by norm_num))]

theorem getD_eq_get {α : Type} [Inhabited α] (l : List α) (k : Nat)
    (h : k < l.length) : l.getD k default = l.get ⟨k, h⟩ := by
  rw [List.getD_eq_getElem?_getD, ← List.get?_eq_getElem?, List.get?_eq_get h]
  rfl

theorem index_to_object_of_ge (t : FUObjectArray) (i : Int)
    (h : t.ObjObjects.NumElements ≤ i) :
    t.index_to_object i = SlotPtr.null := by
  unfold FUObjectArray.index_to_object
  rw [if_neg (not_lt.mpr h)]

theorem index_to_object_of_lt (t : FUObjectArray) (i : Int)
    (h0 : 0 ≤ i) (hlt : i < t.ObjObjects.NumElements)
    (h32 : t.ObjObjects.NumElements < 2 ^ 31)
    (hwf : t.ObjObjects.NumElements.toNat ≤
      NumElementsPerChunk * t.ObjObjects.chunks.length) :
    t.index_to_object i = SlotPtr.slot (slotAt t i) := by
  have hdiv : i.toNat / NumElementsPerChunk < t.ObjObjects.chunks.length := by
    rw [Nat.div_lt_iff_lt_mul (by norm_num [NumElementsPerChunk])]
    calc i.toNat < t.ObjObjects.NumElements.toNat := by omega
    _ ≤ NumElementsPerChunk * t.ObjObjects.chunks.length := hwf
    _ = t.ObjObjects.chunks.length * NumElementsPerChunk := Nat.mul_comm _ _
  unfold FUObjectArray.index_to_object
  rw [if_pos hlt]
  simp only [usizeCast_eq_toNat i h0 (hlt.trans_le h32.le), List.get?_eq_get hdiv]
  unfold slotAt
  rw [getD_eq_get _ _ hdiv]

/-! ## Claim C4 — slot validity -/

/-- C4 (counterexample): the claim's `iff` fails at a slot whose object
pointer is null and whose flag bits are clear: `is_valid` returns `true`
even though the claim requires a non-null object pointer for `true`. -/
theorem is_valid_null_object_counterexample :
    ¬ (FUObjectItem.is_valid ⟨0, 0, 0, 0⟩ = true ↔
        ((⟨0, 0, 0, 0⟩ : FUObjectItem).Object ≠ 0 ∧
          FUObjectItem.is_unreachable ⟨0, 0, 0, 0⟩ = false ∧
          FUObjectItem.is_pending_kill ⟨0, 0, 0, 0⟩ = false)) := by
  decide

/-- C4 (amended): `FUObjectItem::is_valid` returns `true` iff the
unreachable flag bit (bit 28) is clear and the pending-kill flag bit
(bit 29) is clear; the slot's object pointer is not examined. -/
theorem is_valid_iff_flag_bits_clear (s : FUObjectItem) :
    s.is_valid = true ↔
      (s.Flags.testBit 28 = false ∧ s.Flags.testBit 29 = false) := by
  unfold FUObjectItem.is_valid FUObjectItem.is_unreachable FUObjectItem.is_pending_kill
  have e28 := Nat.and_two_pow s.Flags 28
  have e29 := Nat.and_two_pow s.Flags 29
  show (!(s.Flags &&& 2 ^ 28 == 2 ^ 28) && !(s.Flags &&& 2 ^ 29 == 2 ^ 29)) = true ↔ _
  cases h28 : s.Flags.testBit 28 <;> cases h29 : s.Flags.testBit 29 <;>
    rw [h28] at e28 <;> rw [h29] at e29 <;> norm_num at e28 e29 <;>
    simp [e28, e29]

/-! ## Claim C8 — index-to-slot lookup -/

/-- C8 (counterexample): for the negative index `-1` on a well-formed
one-element table, `index_to_object` does not return null: the signed
compare `-1 < NumElements` succeeds, `-1 as usize` sign-extends to
`2^64 - 1`, and the chunk-pointer array is read out of bounds. -/
theorem index_to_object_negative_counterexample :
    FUObjectArray.index_to_object tblOne (-1) = SlotPtr.oob ∧
    SlotPtr.oob ≠ SlotPtr.null ∧ (-1 : Int) < tblOne.ObjObjects.NumElements := by
  refine ⟨?_, by decide, by decide⟩
  rfl

/-- C8 (amended): on a well-formed table, `index_to_object i` returns null
exactly for `i ≥ NumElements` (signed compare), and for `0 ≤ i <
NumElements` returns the slot at chunk `i / 65536`, intra-chunk offset
`i % 65536`; a negative `i` is not rejected — it passes the signed compare
and is reinterpreted as a huge unsigned index. -/
theorem index_to_object_spec (t : FUObjectArray) (i : Int)
    (h32 : t.ObjObjects.NumElements < 2 ^ 31)
    (hwf : t.ObjObjects.NumElements.toNat ≤
      NumElementsPerChunk * t.ObjObjects.chunks.length) :
    (t.ObjObjects.NumElements ≤ i → t.index_to_object i = SlotPtr.null) ∧
    (0 ≤ i → i < t.ObjObjects.NumElements →
      t.index_to_object i = SlotPtr.slot (slotAt t i)) :=
  ⟨fun h => index_to_object_of_ge t i h,
   fun h0 hlt => index_to_object_of_lt t i h0 hlt h32 hwf⟩

/-- C8 (witness): the amended theorem applied to the concrete one-slot
table at the out-of-range index 5 and the in-range index 0. -/
theorem index_to_object_spec_witness :
    FUObjectArray.index_to_object tblOne 5 = SlotPtr.null ∧
    FUObjectArray.index_to_object tblOne 0 = SlotPtr.slot ⟨7, 0, 0, 1⟩ :=
  ⟨(index_to_object_spec tblOne 5 (by decide) (by decide)).1 (by decide),
   ((index_to_object_spec tblOne 0 (by decide) (by decide)).2 (by decide)
      (by decide)).trans (by decide)⟩

/-! ## Claim C2 — weak-reference resolution -/

/-- C2 (counterexample): a weak reference with stored serial number 0 on a
slot whose current serial number is also 0, whose object pointer is non-null
and whose flag bits are clear: every condition of the claim holds (index in
range, serial numbers equal, slot valid per §3), yet `get` returns null
instead of the slot's object pointer, because of the `ObjectSerialNumber ==
0` early-out. -/
theorem weak_get_zero_serial_counterexample :
    FWeakObjectPtr.get ⟨0, 0⟩ tblSerialZero = WeakGet.ptr 0 ∧
    (0 : Int) ≤ 0 ∧ (0 : Int) < tblSerialZero.ObjObjects.NumElements ∧
    (slotAt tblSerialZero 0).SerialNumber = (0 : Int) ∧
    (slotAt tblSerialZero 0).Object ≠ 0 ∧
    (slotAt tblSerialZero 0).is_unreachable = false ∧
    (slotAt tblSerialZero 0).is_pending_kill = false ∧
    WeakGet.ptr 0 ≠ WeakGet.ptr (slotAt tblSerialZero 0).Object := by
  decide

/-- C2 (amended): on a well-formed table, `FWeakObjectPtr::get` returns the
slot's object pointer exactly when the stored serial number is non-zero, the
index is within the reported element count, the slot's current serial number
equals the stored one, and the slot passes `is_valid` (flag bits clear); in
every other case it returns null, and it never performs an invalid access
(the result is always a pointer value, never the out-of-bounds outcome). -/
theorem weak_get_spec (t : FUObjectArray) (w : FWeakObjectPtr)
    (h32 : t.ObjObjects.NumElements < 2 ^ 31)
    (hwf : t.ObjObjects.NumElements.toNat ≤
      NumElementsPerChunk * t.ObjObjects.chunks.length) :
    w.get t = WeakGet.ptr
      (if w.ObjectSerialNumber ≠ 0 ∧ 0 ≤ w.ObjectIndex ∧
          w.ObjectIndex < t.ObjObjects.NumElements ∧
          (slotAt t w.ObjectIndex).SerialNumber = w.ObjectSerialNumber ∧
          (slotAt t w.ObjectIndex).is_valid = true
        then (slotAt t w.ObjectIndex).Object
        else 0) := by
  unfold FWeakObjectPtr.get
  by_cases h1 : w.ObjectSerialNumber = 0 ∨ w.ObjectIndex < 0
  · rw [if_pos h1, if_neg (by rintro ⟨hs, hi, -⟩; rcases h1 with h | h <;> omega)]
  · push_neg at h1
    obtain ⟨hs, hi⟩ := h1
    rw [if_neg (by rintro (h | h) <;> omega)]
    by_cases h2 : w.ObjectIndex < t.ObjObjects.NumElements
    · rw [index_to_object_of_lt t _ hi h2 h32 hwf]
      by_cases h3 : (slotAt t w.ObjectIndex).SerialNumber ≠ w.ObjectSerialNumber ∨
          (slotAt t w.ObjectIndex).is_valid = false
      · show (if (slotAt t w.ObjectIndex).SerialNumber ≠ w.ObjectSerialNumber ∨
            (slotAt t w.ObjectIndex).is_valid = false then WeakGet.ptr 0
          else WeakGet.ptr (slotAt t w.ObjectIndex).Object) = _
        rw [if_pos h3,
          if_neg (by rintro ⟨-, -, -, hser, hval⟩; rcases h3 with h | h <;> simp_all)]
      · show (if (slotAt t w.ObjectIndex).SerialNumber ≠ w.ObjectSerialNumber ∨
            (slotAt t w.ObjectIndex).is_valid = false then WeakGet.ptr 0
          else WeakGet.ptr (slotAt t w.ObjectIndex).Object) = _
        push_neg at h3
        obtain ⟨hser, hval⟩ := h3
        rw [if_neg (by rintro (h | h); exact h hser; simp_all),
          if_pos ⟨hs, hi, h2, hser, by simpa using hval⟩]
    · rw [index_to_object_of_ge t _ (le_of_not_lt h2)]
      show WeakGet.ptr 0 = _
      rw [if_neg (by rintro ⟨-, -, hlt, -⟩; omega)]

/-- C2 (witness): the amended theorem at the concrete one-slot table —
a matching serial resolves to object 7; a mismatching serial resolves to
null even though the slot's object pointer is non-null (slot reuse). -/
theorem weak_get_spec_witness :
    FWeakObjectPtr.get ⟨0, 1⟩ tblOne = WeakGet.ptr 7 ∧
    FWeakObjectPtr.get ⟨0, 2⟩ tblOne = WeakGet.ptr 0 ∧
    (slotAt tblOne 0).Object ≠ 0 :=
  ⟨(weak_get_spec tblOne ⟨0, 1⟩ (by decide) (by decide)).trans (by decide),
   (weak_get_spec tblOne ⟨0, 2⟩ (by decide) (by decide)).trans (by decide),
   by decide⟩

/-! ## Claim C7 — object-table iteration -/

theorem next_of_lt (c : List (Nat → FUObjectItem)) (n i : Nat) (hlt : i < n)
    (hdiv : i / NumElementsPerChunk < c.length) :
    ObjectIterator.next ⟨c, n, i⟩ =
      some (some ((c.getD (i / NumElementsPerChunk) default)
        (i % NumElementsPerChunk)).Object, ⟨c, n, i + 1⟩) := by
  unfold ObjectIterator.next
  rw [if_pos hlt]
  simp only [List.get?_eq_get hdiv]
  rw [getD_eq_get _ _ hdiv]

theorem next_of_ge (c : List (Nat → FUObjectItem)) (n i : Nat) (h : n ≤ i) :
    ObjectIterator.next ⟨c, n, i⟩ = none := by
  unfold ObjectIterator.next
  rw [if_neg (not_lt.mpr h)]

theorem drain_eq (c : List (Nat → FUObjectItem)) (n : Nat)
    (hwf : n ≤ NumElementsPerChunk * c.length) :
    ∀ fuel i, n ≤ i + fuel →
      ObjectIterator.drain ⟨c, n, i⟩ fuel =
        some ((List.range' i (n - i)).map fun j =>
          ((c.getD (j / NumElementsPerChunk) default)
            (j % NumElementsPerChunk)).Object) := by
  intro fuel
  induction fuel with
  | zero =>
    intro i hi
    have hz : n - i = 0 := by omega
    unfold ObjectIterator.drain
    rw [next_of_ge c n i (by omega), hz]
    rfl
  | succ fuel ih =>
    intro i hi
    by_cases hlt : i < n
    · have hdiv : i / NumElementsPerChunk < c.length := by
        rw [Nat.div_lt_iff_lt_mul (by norm_num [NumElementsPerChunk])]
        calc i < n := hlt
        _ ≤ NumElementsPerChunk * c.length := hwf
        _ = c.length * NumElementsPerChunk := Nat.mul_comm _ _
      unfold ObjectIterator.drain
      rw [next_of_lt c n i hlt hdiv]
      show Option.map _ (ObjectIterator.drain ⟨c, n, i + 1⟩ fuel) = _
      rw [ih (i + 1) (by omega)]
      have hk : n - i = (n - (i + 1)) + 1 := by omega
      rw [hk, Option.map_some']
      rfl
    · have hz : n - i = 0 := by omega
      unfold ObjectIterator.drain
      rw [next_of_ge c n i (by omega), hz]
      rfl

/-- C7: on a well-formed table with reported element count `n`, iteration
yields exactly the object pointers of slots `0` through `n - 1`, in
ascending index order, including null entries for destroyed objects. -/
theorem iter_visits_indices_in_order (t : FUObjectArray)
    (hn : 0 ≤ t.ObjObjects.NumElements)
    (h32 : t.ObjObjects.NumElements < 2 ^ 31)
    (hwf : t.ObjObjects.NumElements.toNat ≤
      NumElementsPerChunk * t.ObjObjects.chunks.length) :
    iterList t =
      some ((List.range t.ObjObjects.NumElements.toNat).map
        fun (i : Nat) => (slotAt t (Int.ofNat i)).Object) := by
  unfold iterList FUObjectArray.iter
  rw [usizeCast_eq_toNat _ hn h32,
    drain_eq t.ObjObjects.chunks t.ObjObjects.NumElements.toNat hwf
      t.ObjObjects.NumElements.toNat 0 (by omega),
    List.range_eq_range']
  simp only [Nat.sub_zero, Option.some.injEq]
  apply List.map_congr_left
  intro a _
  simp [slotAt]

/-- C7 (witness): the ten-slot table with a null entry at index 5 yields
the ten slot pointers in index order; exactly 9 are non-null, index 5 being
the null one. -/
theorem iter_ten_slots_witness :
    iterList tblTen = some [1, 2, 3, 4, 5, 0, 7, 8, 9, 10] ∧
    ((([1, 2, 3, 4, 5, 0, 7, 8, 9, 10] : List Nat).filter (· ≠ 0)).length = 9) ∧
    ([1, 2, 3, 4, 5, 0, 7, 8, 9, 10] : List Nat).get? 5 = some 0 :=
  ⟨(iter_visits_indices_in_order tblTen (by decide) (by decide)
      (by decide)).trans (by decide),
   by decide, by decide⟩

/-! ## Claim C3 — class-hierarchy ancestor test -/

/-- C3: `UStruct::is` (via `FStructBaseChain::is`) returns true iff `P`'s
chain-depth field is ≤ `C`'s chain-depth field and the pointer stored in
`C`'s base-chain array at `P`'s chain-depth index equals `P` (the depth is
the stored `NumStructBasesInChainMinusOne` field, the per-class chain-length
field the spec indexes with; it is non-negative for any real descriptor). -/
theorem ustruct_is_iff_base_chain_spec (w : ChainWorld) (c p : Nat)
    (h0 : 0 ≤ (w.chains p).NumStructBasesInChainMinusOne)
    (h32 : (w.chains p).NumStructBasesInChainMinusOne < 2 ^ 31) :
    UStruct.is w c p = true ↔ specDescendantOrSelf w c p := by
  unfold UStruct.is FStructBaseChain.is specDescendantOrSelf
  dsimp only
  rw [usizeCast_eq_toNat _ h0 h32]
  simp [Bool.and_eq_true, decide_eq_true_iff, beq_iff_eq]

/-- C3 (witness): in the concrete class world, `C` (address 2, depth 1,
chain array `[P, C]`) is a descendant of `P` (address 1, depth 0); after
mutating `C`'s chain-array entry at `P`'s depth index to a non-matching
pointer, the test returns false. -/
theorem ustruct_is_witness :
    UStruct.is chainW 2 1 = true ∧ UStruct.is chainWMut 2 1 = false := by
  constructor
  · exact (ustruct_is_iff_base_chain_spec chainW 2 1 (by decide)
      (by decide)).mpr (by decide)
  · have h := ustruct_is_iff_base_chain_spec chainWMut 2 1 (by decide) (by decide)
    have hs : ¬ specDescendantOrSelf chainWMut 2 1 := by decide
    exact Bool.eq_false_iff.mpr fun ht => hs (h.mp ht)

/-! ## Claim C10 — Display number suffix -/

/-- C10: the formatted description of an object ends in `_{n - 1}` exactly
when the interned-name number component `n` is positive, and has no suffix
when `n = 0`. -/
theorem display_number_suffix (w : ObjectWorld) (p : Nat) :
    (0 < (w.heap p).NamePrivate.number →
      display w p = displayStem w p ++ "_" ++
        toString ((w.heap p).NamePrivate.number - 1)) ∧
    ((w.heap p).NamePrivate.number = 0 → display w p = displayStem w p) := by
  constructor
  · intro h
    unfold display
    rw [if_pos h, ← String.append_assoc]
  · intro h
    unfold display
    rw [h]
    simp [String.append_empty]

/-- C10 (witness): object 1 has name number 3, so its description carries
the suffix `_2`; object 2 has name number 0 and no suffix. The concrete
rendered strings are checked explicitly. -/
theorem display_number_suffix_witness :
    display objW 1 = displayStem objW 1 ++ "_" ++
      toString ((objW.heap 1).NamePrivate.number - 1) ∧
    display objW 2 = displayStem objW 2 ∧
    display objW 1 = "Bar Baz.Foo_2" ∧
    display objW 2 = "Bar Bar" :=
  ⟨(display_number_suffix objW 1).1 (by decide),
   (display_number_suffix objW 2).2 (by decide),
   by decide, by decide⟩

/-! ## Claim C1 — qualified-name resolver -/

theorem findLoop_eq_find (w : ObjectWorld) (tgt : FullName) :
    ∀ objs : List Nat, findLoop w tgt objs =
      objs.find? fun q => (q != 0) && matchesAllTiers w tgt q := by
  intro objs
  induction objs with
  | nil => rfl
  | cons p rest ih =>
    rw [List.find?_cons]
    by_cases hp : p = 0
    · subst hp
      simp [findLoop, ih]
    · have hp2 : (p != 0) = true := by simp [hp]
      by_cases hname : (w.heap p).NamePrivate.text = tgt.name
      · by_cases hcls : (w.heap (w.heap p).ClassPrivate).NamePrivate.text = tgt.cls
        · by_cases houter : matchOuters w tgt.outers (w.heap p).OuterPrivate = true
          · have hm : ((p != 0) && matchesAllTiers w tgt p) = true := by
              simp [matchesAllTiers, hp2, hname, hcls, houter]
            simp [findLoop, hp, hname, hcls, houter, hm]
          · have hm : ((p != 0) && matchesAllTiers w tgt p) = false := by
              simp [matchesAllTiers, houter]
            simp [findLoop, hp, hname, hcls, houter, hm, ih]
        · have hm : ((p != 0) && matchesAllTiers w tgt p) = false := by
            simp [matchesAllTiers, hcls]
          simp [findLoop, hp, hname, hcls, hm, ih]
      · have hm : ((p != 0) && matchesAllTiers w tgt p) = false := by
          simp [matchesAllTiers, hname]
        simp [findLoop, hp, hname, hm, ih]

/-- C1: `FUObjectArray::find` returns exactly the first iterated candidate
that is non-null and matches all three tiers of the parsed target (own
name, class name, and the outer chain against the outer tokens in order,
failing on chain exhaustion); when no candidate matches, it returns the
`UnableToFind` error carrying the original query string. -/
theorem find_matches_spec (w : ObjectWorld) (t : FUObjectArray) (q : String)
    (tgt : FullName) :
    FUObjectArray.find w t q tgt =
      (iterList t).map fun objs =>
        match objs.find? (fun p => (p != 0) && matchesAllTiers w tgt p) with
        | some p => FindResult.ok p
        | none => FindResult.UnableToFind q := by
  unfold FUObjectArray.find
  cases h : iterList t with
  | none => rfl
  | some objs => simp only [Option.map_some', findLoop_eq_find w tgt objs]

/-! ## Memory-model lemmas -/

theorem patchWriteBytes_mem (s : MachineState) (addr : Nat) (bs : List Nat) :
    (patchWriteBytes s addr bs).mem = writeBytes s.mem addr bs := rfl

theorem writeBytes_out (bs : List Nat) : ∀ (m : Nat → Nat) (addr a : Nat),
    a < addr ∨ addr + bs.length ≤ a → writeBytes m addr bs a = m a := by
  induction bs with
  | nil => intro m addr a _; rfl
  | cons b rest ih =>
    intro m addr a h
    simp only [List.length_cons] at h
    show writeBytes (writeByte m addr b) (addr + 1) rest a = m a
    rw [ih (writeByte m addr b) (addr + 1) a (by omega)]
    unfold writeByte
    rw [if_neg (by omega)]

theorem writeBytes_in (bs : List Nat) : ∀ (m : Nat → Nat) (addr i : Nat),
    i < bs.length → writeBytes m addr bs (addr + i) = bs.getD i 0 := by
  induction bs with
  | nil => intro m addr i h; simp at h
  | cons b rest ih =>
    intro m addr i h
    show writeBytes (writeByte m addr b) (addr + 1) rest (addr + i) = _
    cases i with
    | zero =>
      rw [writeBytes_out rest _ _ _ (by left; omega)]
      unfold writeByte
      rw [if_pos (by omega)]
      rfl
    | succ j =>
      have ha : addr + (j + 1) = (addr + 1) + j := by omega
      rw [ha, ih _ _ _ (by simpa using h)]
      rfl

theorem readBytes_length (m : Nat → Nat) (addr n : Nat) :
    (readBytes m addr n).length = n := by
  simp [readBytes]

theorem readBytes_getD (m : Nat → Nat) (addr n i : Nat) (h : i < n) :
    (readBytes m addr n).getD i 0 = m (addr + i) := by
  unfold readBytes
  rw [List.getD_eq_getElem?_getD, ← List.get?_eq_getElem?, List.get?_map,
    List.get?_range h]
  rfl

theorem patchWrite_restore (s : MachineState) (addr : Nat) (bs : List Nat)
    (hprot : ∀ k, k < bs.length → s.prot (addr + k) = s.prot addr) (a : Nat) :
    (patchWriteBytes (patchWriteBytes s addr bs) addr
        (readBytes s.mem addr bs.length)).mem a = s.mem a ∧
    (patchWriteBytes (patchWriteBytes s addr bs) addr
        (readBytes s.mem addr bs.length)).prot a = s.prot a := by
  constructor
  · show writeBytes (writeBytes s.mem addr bs) addr
      (readBytes s.mem addr bs.length) a = s.mem a
    by_cases hin : addr ≤ a ∧ a < addr + bs.length
    · have ha : a = addr + (a - addr) := by omega
      rw [ha, writeBytes_in _ _ _ _ (by rw [readBytes_length]; omega),
        readBytes_getD _ _ _ _ (by omega)]
    · rw [writeBytes_out _ _ _ _ (by rw [readBytes_length]; omega),
        writeBytes_out _ _ _ _ (by omega)]
  · show setProtRange
      (setProtRange (patchWriteBytes s addr bs).prot addr
        (readBytes s.mem addr bs.length).length PAGE_EXECUTE_READWRITE)
      addr (readBytes s.mem addr bs.length).length
      ((patchWriteBytes s addr bs).prot addr) a = s.prot a
    have hold : (patchWriteBytes s addr bs).prot addr = s.prot addr := by
      show setProtRange
        (setProtRange s.prot addr bs.length PAGE_EXECUTE_READWRITE)
        addr bs.length (s.prot addr) addr = s.prot addr
      unfold setProtRange
      by_cases h0 : addr ≤ addr ∧ addr < addr + bs.length
      · rw [if_pos h0]
      · rw [if_neg h0, if_neg h0]
    rw [hold]
    simp only [readBytes_length]
    unfold setProtRange
    by_cases hin : addr ≤ a ∧ a < addr + bs.length
    · rw [if_pos hin]
      obtain ⟨h1, h2⟩ := hin
      have := hprot (a - addr) (by omega)
      have ha : addr + (a - addr) = a := by omega
      rw [ha] at this
      omega
    · rw [if_neg hin, if_neg hin]
      show setProtRange
        (setProtRange s.prot addr bs.length PAGE_EXECUTE_READWRITE)
        addr bs.length (s.prot addr) a = s.prot a
      unfold setProtRange
      rw [if_neg hin, if_neg hin]

theorem valueWrite_restore {T : Type} (size : Nat) (s : ValueState T)
    (addr : Nat) (v : T) (hprot : ∀ k, k < size → s.prot (addr + k) = s.prot addr)
    (a : Nat) :
    (valueWrite size (valueWrite size s addr v) addr (s.store addr)).store a
        = s.store a ∧
    (valueWrite size (valueWrite size s addr v) addr (s.store addr)).prot a
        = s.prot a := by
  constructor
  · show (if a = addr then s.store addr
      else (valueWrite size s addr v).store a) = s.store a
    by_cases ha : a = addr
    · rw [if_pos ha, ha]
    · rw [if_neg ha]
      show (if a = addr then v else s.store a) = s.store a
      rw [if_neg ha]
  · show setProtRange
      (setProtRange (valueWrite size s addr v).prot addr size
        PAGE_EXECUTE_READWRITE)
      addr size ((valueWrite size s addr v).prot addr) a = s.prot a
    have hold : (valueWrite size s addr v).prot addr = s.prot addr := by
      show setProtRange
        (setProtRange s.prot addr size PAGE_EXECUTE_READWRITE)
        addr size (s.prot addr) addr = s.prot addr
      unfold setProtRange
      by_cases h0 : addr ≤ addr ∧ addr < addr + size
      · rw [if_pos h0]
      · rw [if_neg h0, if_neg h0]
    rw [hold]
    unfold setProtRange
    by_cases hin : addr ≤ a ∧ a < addr + size
    · rw [if_pos hin]
      obtain ⟨h1, h2⟩ := hin
      have := hprot (a - addr) (by omega)
      have ha : addr + (a - addr) = a := by omega
      rw [ha] at this
      omega
    · rw [if_neg hin, if_neg hin]
      show setProtRange
        (setProtRange s.prot addr size PAGE_EXECUTE_READWRITE)
        addr size (s.prot addr) a = s.prot a
      unfold setProtRange
      rw [if_neg hin, if_neg hin]

theorem readBytes_congr (m m2 : Nat → Nat) (addr n : Nat)
    (h : ∀ i, i < n → m (addr + i) = m2 (addr + i)) :
    readBytes m addr n = readBytes m2 addr n := by
  unfold readBytes
  apply List.map_congr_left
  intro i hi
  exact h i (List.mem_range.mp hi)

theorem jmpPatchBytes_length (a b : Nat) : (jmpPatchBytes a b).length = 6 := rfl

theorem cavePatchBytes_length (my pe cave : Nat) (fs : List Nat)
    (h : fs.length = 6) : (cavePatchBytes my pe cave fs).length = 31 := by
  simp [cavePatchBytes, le64, le32, h]

theorem hook_entry_restored (s : MachineState) (my pe cave : Nat)
    (hdisj : pe + 6 ≤ cave ∨ cave + 31 ≤ pe) :
    readBytes ((ProcessEventHook.new s my pe cave).1.drop
        (ProcessEventHook.new s my pe cave).2).1.mem pe 6 =
      readBytes s.mem pe 6 := by
  show readBytes
    (patchWriteBytes
      (patchWriteBytes
        (patchWriteBytes (patchWriteBytes s pe (jmpPatchBytes pe cave)) cave
          (cavePatchBytes my pe cave (readBytes s.mem pe 6)))
        pe (readBytes s.mem pe (jmpPatchBytes pe cave).length))
      cave
      (readBytes (patchWriteBytes s pe (jmpPatchBytes pe cave)).mem cave
        (cavePatchBytes my pe cave (readBytes s.mem pe 6)).length)).mem
    pe 6 = readBytes s.mem pe 6
  have hcb : (cavePatchBytes my pe cave (readBytes s.mem pe 6)).length = 31 :=
    cavePatchBytes_length my pe cave _ (readBytes_length s.mem pe 6)
  apply readBytes_congr
  intro i hi6
  rw [patchWriteBytes_mem,
    writeBytes_out _ _ _ _ (by rw [readBytes_length, hcb]; omega),
    patchWriteBytes_mem,
    writeBytes_in _ _ _ _ (by rw [readBytes_length, jmpPatchBytes_length]; omega),
    jmpPatchBytes_length,
    readBytes_getD _ _ _ _ hi6]

/-! ## Claim C5 — patch/hook restoration -/

/-- C5: (1) a byte `Patch` created by `new` and released by `drop` restores
every memory byte and every page protection to its pre-attach value (given
the patched range started with uniform protection, as `VirtualProtect`
restoration only replays the first page's old protection); (2) attaching and
then detaching the `ProcessEventHook` leaves the target function's 6 entry
bytes byte-for-byte identical to their pre-attach state (given the entry and
the cave do not overlap); (3) the typed `Patch<T>` likewise restores the
original value and protection on release. -/
theorem patch_and_hook_restore :
    (∀ (s : MachineState) (addr : Nat) (bs : List Nat),
      (∀ k, k < bs.length → s.prot (addr + k) = s.prot addr) →
      ∀ a, ((Patch.new s addr bs).1.drop (Patch.new s addr bs).2).mem a = s.mem a ∧
        ((Patch.new s addr bs).1.drop (Patch.new s addr bs).2).prot a = s.prot a) ∧
    (∀ (s : MachineState) (my pe cave : Nat),
      pe + 6 ≤ cave ∨ cave + 31 ≤ pe →
      readBytes ((ProcessEventHook.new s my pe cave).1.drop
          (ProcessEventHook.new s my pe cave).2).1.mem pe 6 =
        readBytes s.mem pe 6) ∧
    (∀ (size : Nat) (s : ValueState Nat) (addr : Nat) (v : Nat),
      (∀ k, k < size → s.prot (addr + k) = s.prot addr) →
      ∀ a,
        ((PatchT.new size s addr v).1.drop size (PatchT.new size s addr v).2).store a
          = s.store a ∧
        ((PatchT.new size s addr v).1.drop size (PatchT.new size s addr v).2).prot a
          = s.prot a) :=
  ⟨fun s addr bs hp a => patchWrite_restore s addr bs hp a,
   fun s my pe cave hd => hook_entry_restored s my pe cave hd,
   fun size s addr v hp a => valueWrite_restore size s addr v hp a⟩

/-- C5 (witness): the restoration theorem at concrete states — a 3-byte
patch at 16, the hook at entry `0x1000` with cave `0x2000`, and a typed
patch of the value 42 at cell 4. -/
theorem patch_and_hook_restore_witness :
    ((Patch.new ms0 16 [9, 8, 7]).1.drop (Patch.new ms0 16 [9, 8, 7]).2).mem 17
        = ms0.mem 17 ∧
    ((Patch.new ms0 16 [9, 8, 7]).1.drop (Patch.new ms0 16 [9, 8, 7]).2).prot 17
        = ms0.prot 17 ∧
    readBytes ((ProcessEventHook.new ms0 0x500 0x1000 0x2000).1.drop
        (ProcessEventHook.new ms0 0x500 0x1000 0x2000).2).1.mem 0x1000 6 =
      readBytes ms0.mem 0x1000 6 ∧
    ((PatchT.new 8 vs0 4 (42 : Nat)).1.drop 8 (PatchT.new 8 vs0 4 42).2).store 4
        = vs0.store 4 :=
  ⟨(patch_and_hook_restore.1 ms0 16 [9, 8, 7] (fun k hk => rfl) 17).1,
   (patch_and_hook_restore.1 ms0 16 [9, 8, 7] (fun k hk => rfl) 17).2,
   patch_and_hook_restore.2.1 ms0 0x500 0x1000 0x2000 (by decide),
   (patch_and_hook_restore.2.2 8 vs0 4 42 (fun k hk => rfl) 4).1⟩

/-! ## Claim C6 — teardown ordering -/

/-- C6: hook teardown performs exactly, and in this order: restore the
target's original entry bytes, sleep for the 100 ms grace delay, then
restore the code cave — and the final state is the cave restoration applied
after the entry restoration, never the reverse. -/
theorem hook_drop_event_order (h : ProcessEventHook) (s : MachineState) :
    (h.drop s).2 = [TeardownEvent.restoreEntry, TeardownEvent.sleep 100,
      TeardownEvent.restoreCave] ∧
    ([TeardownEvent.restoreEntry, TeardownEvent.sleep 100,
        TeardownEvent.restoreCave].indexOf TeardownEvent.restoreEntry <
      [TeardownEvent.restoreEntry, TeardownEvent.sleep 100,
        TeardownEvent.restoreCave].indexOf (TeardownEvent.sleep 100)) ∧
    ([TeardownEvent.restoreEntry, TeardownEvent.sleep 100,
        TeardownEvent.restoreCave].indexOf (TeardownEvent.sleep 100) <
      [TeardownEvent.restoreEntry, TeardownEvent.sleep 100,
        TeardownEvent.restoreCave].indexOf TeardownEvent.restoreCave) ∧
    (h.drop s).1 = h.code_cave.drop (h.jmp.drop s) :=
  ⟨rfl, by decide, by decide, rfl⟩

/-! ## Claim C9 — entry overwrite atomicity -/

/-- C9 (refutation, supporting the code-bug verdict): the 6-byte entry
overwrite is performed as six separate byte stores, not as one atomic
instruction-sized write; after the first store the entry bytes are a torn
mixture that differs both from the original prologue and from the completed
jump patch, so a concurrently executing host thread can observe a torn
instruction. -/
theorem entry_overwrite_torn_state :
    (jmpPatchBytes 0x1000 0x2000).length = 6 ∧
    (writeStates peEntryMem 0x1000 (jmpPatchBytes 0x1000 0x2000)).length = 6 ∧
    readBytes ((writeStates peEntryMem 0x1000
        (jmpPatchBytes 0x1000 0x2000)).headD peEntryMem) 0x1000 6 ≠
      readBytes peEntryMem 0x1000 6 ∧
    readBytes ((writeStates peEntryMem 0x1000
        (jmpPatchBytes 0x1000 0x2000)).headD peEntryMem) 0x1000 6 ≠
      readBytes (writeBytes peEntryMem 0x1000 (jmpPatchBytes 0x1000 0x2000))
        0x1000 6 := by
  decide

end Drg
